import Mathlib

/-!
Verification of dzcp (Dragan's Zero-Copy utility, src/dzcp.c) against its
natural-language specification.  The C program is shallowly embedded: the
block-partition loop of `copy_blocks` becomes a fuel-indexed recursion on
naturals, the `sendfile` retry loop becomes a step function on the worker's
loop state, and the control flow of `main`/`perform_copy`/
`find_optimal_settings` becomes a pure function from an abstract environment
(outcomes of the external calls: stat, open, fork, drop_caches, unlink,
per-worker transfer failure) to the observable result (exit code, destination
file facts, worker termination statuses).
-/

namespace Dzcp

/-! ## Partition planner: the outer loop of `copy_blocks` (dzcp.c:87-119)

One loop iteration transfers the block starting at `offset`
(`min block_size (file_size - offset)` bytes, moved by the inner sendfile
loop, which advances `offset` itself), then skips the blocks of the other
workers: `offset += (num_processes - 1) * block_size`.  The recursion below
returns the list of (source offset, length) ranges the loop transfers.
Fuel bounds the iteration count; `file_size` iterations always suffice
because each iteration with `offset < file_size` advances `offset` by at
least one byte (for a positive block size). -/

def copyBlocksLoop (fs bs n : Nat) : Nat → Nat → List (Nat × Nat)
  | 0, _ => []
  | fuel + 1, o =>
    if o < fs then
      (o, min bs (fs - o)) :: copyBlocksLoop fs bs n fuel (o + min bs (fs - o) + (n - 1) * bs)
    else []

/-- The ranges worker `i` transfers: `copy_blocks` starts it at
`offset = process_num * block_size` (dzcp.c:65). -/
def workerRanges (fs bs n i : Nat) : List (Nat × Nat) :=
  copyBlocksLoop fs bs n fs (i * bs)

/-- Byte `b` of the source is covered by (some range of) worker `i`. -/
def covered (fs bs n i b : Nat) : Prop :=
  ∃ r ∈ workerRanges fs bs n i, r.1 ≤ b ∧ b < r.1 + r.2

instance (fs bs n i b : Nat) : Decidable (covered fs bs n i b) := by
  unfold covered; infer_instance

lemma copyBlocksLoop_stop (fs bs n fuel o : Nat) (h : fs ≤ o) :
    copyBlocksLoop fs bs n fuel o = [] := by
  cases fuel <;> simp [copyBlocksLoop, Nat.not_lt.mpr h]

lemma sub_one_mul_add (bs : Nat) {n : Nat} (hn : 0 < n) :
    bs + (n - 1) * bs = n * bs := by
  cases n with
  | zero => exact absurd hn (by simp)
  | succ m => simp [Nat.succ_mul, Nat.add_comm]

/-- Membership characterisation of the partition loop: with positive block
size and worker count, and enough fuel, the loop starting at `o` produces
exactly the ranges at offsets `o, o + n*bs, o + 2*(n*bs), ...` that begin
before the end of the file, each of length `min bs (fs - offset)`. -/
lemma mem_copyBlocksLoop (fs bs n : Nat) (hbs : 0 < bs) (hn : 0 < n) :
    ∀ fuel o a l, fs ≤ o + fuel →
      ((a, l) ∈ copyBlocksLoop fs bs n fuel o ↔
        (∃ j, a = o + j * (n * bs)) ∧ a < fs ∧ l = min bs (fs - a)) := by
  intro fuel
  induction fuel with
  | zero =>
    intro o a l hfuel
    constructor
    · intro h; simp [copyBlocksLoop] at h
    · rintro ⟨⟨j, rfl⟩, h2, -⟩
      exact absurd h2 (Nat.not_lt.mpr (le_trans (by simpa using hfuel) (Nat.le_add_right o _)))
  | succ fuel ih =>
    intro o a l hfuel
    by_cases ho : o < fs
    · have hnbs : 0 < n * bs := Nat.mul_pos hn hbs
      by_cases hfull : o + bs ≤ fs
      · -- a full block: the loop advances by exactly n * bs
        have hmin : min bs (fs - o) = bs := Nat.min_eq_left (by omega)
        have hnext : o + min bs (fs - o) + (n - 1) * bs = o + n * bs := by
          rw [hmin, Nat.add_assoc, sub_one_mul_add bs hn]
        have htail := ih (o + n * bs) a l (by omega)
        simp only [copyBlocksLoop, if_pos ho, List.mem_cons, hnext, htail]
        constructor
        · rintro (h | ⟨⟨j, rfl⟩, h2, h3⟩)
          · obtain ⟨rfl, rfl⟩ := Prod.mk.injEq .. ▸ h
            exact ⟨⟨0, by simp⟩, ho, rfl⟩
          · refine ⟨⟨j + 1, ?_⟩, h2, h3⟩
            rw [Nat.add_mul, Nat.one_mul]; omega
        · rintro ⟨⟨j, rfl⟩, h2, rfl⟩
          cases j with
          | zero => exact Or.inl (by simp)
          | succ k =>
            refine Or.inr ⟨⟨k, ?_⟩, h2, rfl⟩
            rw [Nat.add_mul, Nat.one_mul]; omega
      · -- a partial final block: the next offset is at or past the file end
        have hmin : min bs (fs - o) = fs - o := Nat.min_eq_right (by omega)
        have hstop : copyBlocksLoop fs bs n fuel (o + min bs (fs - o) + (n - 1) * bs) = [] :=
          copyBlocksLoop_stop fs bs n fuel _ (by omega)
        simp only [copyBlocksLoop, if_pos ho, hstop, List.mem_singleton]
        constructor
        · intro h
          obtain ⟨rfl, rfl⟩ := Prod.mk.injEq .. ▸ h
          exact ⟨⟨0, by simp⟩, ho, rfl⟩
        · rintro ⟨⟨j, rfl⟩, h2, rfl⟩
          cases j with
          | zero => simp
          | succ k =>
            have hbsle : bs ≤ n * bs := Nat.le_mul_of_pos_left bs hn
            have : (k + 1) * (n * bs) = k * (n * bs) + n * bs := by
              rw [Nat.add_mul, Nat.one_mul]
            omega
    · rw [copyBlocksLoop_stop fs bs n _ o (Nat.not_lt.mp ho)]
      simp only [List.not_mem_nil, false_iff]
      rintro ⟨⟨j, rfl⟩, h2, -⟩
      exact absurd h2 (Nat.not_lt.mpr (le_trans (Nat.not_lt.mp ho) (Nat.le_add_right o _)))

/-- Worker `i` covers byte `b` exactly when `b` is inside the file and the
block index `b / bs` is congruent to `i` modulo the worker count: the
round-robin ownership law. -/
lemma covered_iff (fs bs n i b : Nat) (hbs : 0 < bs) (hn : 0 < n) (hi : i < n) :
    covered fs bs n i b ↔ b < fs ∧ b / bs % n = i := by
  unfold covered workerRanges
  constructor
  · rintro ⟨⟨a, l⟩, hmem, hab, hbl⟩
    rw [mem_copyBlocksLoop fs bs n hbs hn fs (i * bs) a l (Nat.le_add_left fs _)] at hmem
    obtain ⟨⟨j, rfl⟩, haf, rfl⟩ := hmem
    have hAmul : (i + j * n) * bs = i * bs + j * (n * bs) := by
      rw [Nat.add_mul, Nat.mul_assoc]
    have hminle : min bs (fs - (i * bs + j * (n * bs))) ≤ fs - (i * bs + j * (n * bs)) :=
      Nat.min_le_right _ _
    have hminbs : min bs (fs - (i * bs + j * (n * bs))) ≤ bs := Nat.min_le_left _ _
    have hbfs : b < fs := by omega
    have hdiv : b / bs = i + j * n := by
      apply Nat.div_eq_of_lt_le
      · rw [hAmul]; exact hab
      · rw [Nat.add_mul, Nat.one_mul, hAmul]; omega
    refine ⟨hbfs, ?_⟩
    rw [hdiv, Nat.add_mul_mod_self_right, Nat.mod_eq_of_lt hi]
  · rintro ⟨hbfs, hmod⟩
    have hq : b / bs = i + (b / bs / n) * n := by
      conv_lhs => rw [← Nat.mod_add_div (b / bs) n]
      rw [hmod, Nat.mul_comm]
    set j := b / bs / n with hj
    have hAmul : (i + j * n) * bs = i * bs + j * (n * bs) := by
      rw [Nat.add_mul, Nat.mul_assoc]
    have hAb : i * bs + j * (n * bs) ≤ b := by
      rw [← hAmul, ← hq]
      exact Nat.div_mul_le_self b bs
    have hbup : b < i * bs + j * (n * bs) + bs := by
      have h1 : bs * (i + j * n) + b % bs = b := by rw [← hq]; exact Nat.div_add_mod b bs
      have h2 : b % bs < bs := Nat.mod_lt b hbs
      have h3 : bs * (i + j * n) = i * bs + j * (n * bs) := by ring
      set r := b % bs with hr
      clear_value r
      clear hr hq hj hAmul hAb
      omega
    refine ⟨(i * bs + j * (n * bs), min bs (fs - (i * bs + j * (n * bs)))), ?_, hAb, ?_⟩
    · rw [mem_copyBlocksLoop fs bs n hbs hn fs (i * bs) _ _ (Nat.le_add_left fs _)]
      exact ⟨⟨j, rfl⟩, by omega, rfl⟩
    · have h1 : b - (i * bs + j * (n * bs)) < bs := by omega
      have h2 : b - (i * bs + j * (n * bs)) < fs - (i * bs + j * (n * bs)) := by omega
      omega

/-- Claim C1: for every `file_size > 0`, `block_size > 0` and
`worker_count > 0`, the byte ranges the partition scheme assigns across all
workers cover exactly `[0, file_size)` — every byte below `file_size` belongs
to some worker, no covered byte lies outside the file, and no byte belongs to
two distinct workers. -/
theorem partition_coverage (fs bs n : Nat) (hbs : 0 < bs) (hn : 0 < n) (hfs : 0 < fs) :
    (∀ b, b < fs → ∃ i, i < n ∧ covered fs bs n i b) ∧
    (∀ b i, i < n → covered fs bs n i b → b < fs) ∧
    (∀ b i j, i < n → j < n →
      covered fs bs n i b → covered fs bs n j b → i = j) := by
  refine ⟨?_, ?_, ?_⟩
  · intro b hb
    refine ⟨b / bs % n, Nat.mod_lt _ hn, ?_⟩
    exact (covered_iff fs bs n _ b hbs hn (Nat.mod_lt _ hn)).mpr ⟨hb, rfl⟩
  · intro b i hi hc
    exact ((covered_iff fs bs n i b hbs hn hi).mp hc).1
  · intro b i j hi hj hci hcj
    have h1 := ((covered_iff fs bs n i b hbs hn hi).mp hci).2
    have h2 := ((covered_iff fs bs n j b hbs hn hj).mp hcj).2
    omega

/-- Claim C1 witness: the coverage theorem applied to the concrete instance
`file_size = 5`, `block_size = 2`, `worker_count = 2`. -/
theorem partition_coverage_witness :
    (∀ b, b < 5 → ∃ i, i < 2 ∧ covered 5 2 2 i b) ∧
    (∀ b i, i < 2 → covered 5 2 2 i b → b < 5) ∧
    (∀ b i j, i < 2 → j < 2 → covered 5 2 2 i b → covered 5 2 2 j b → i = j) :=
  partition_coverage 5 2 2 (by decide) (by decide) (by decide)

/-! ## The Partition Planner contract as the spec words it (spec.md section 4.1)

For the refinement claim C2 a second sequence generator follows the spec's
sentence: starting offset `worker_index * block_size`, each subsequent
offset = previous + `worker_count * block_size`, each length =
`min block_size (file_size - offset)`, terminating once
`offset >= file_size`. -/

/-- Modelled from the spec: the range sequence of the Partition Planner
contract, advancing the offset by exactly `worker_count * block_size` per
range.  (The code instead advances via the inner transfer loop plus the
`(num_processes - 1) * block_size` skip; claim C2 states the two agree.) -/
def plannerSpecLoop (fs bs n : Nat) : Nat → Nat → List (Nat × Nat)
  | 0, _ => []
  | fuel + 1, o =>
    if o < fs then (o, min bs (fs - o)) :: plannerSpecLoop fs bs n fuel (o + n * bs)
    else []

/-- Modelled from the spec: the ordered range sequence of worker
`worker_index`. -/
def plannerSpec (fs bs n i : Nat) : List (Nat × Nat) :=
  plannerSpecLoop fs bs n fs (i * bs)

lemma plannerSpecLoop_stop (fs bs n fuel o : Nat) (h : fs ≤ o) :
    plannerSpecLoop fs bs n fuel o = [] := by
  cases fuel <;> simp [plannerSpecLoop, Nat.not_lt.mpr h]

/-- At equal fuel, the code's loop and the spec's sequence agree for every
positive block size and worker count: once a block is partial both advance
past the end of the file, and on a full block both advance by exactly
`n * bs`. -/
lemma copyBlocksLoop_eq_plannerSpecLoop (fs bs n : Nat) (hbs : 0 < bs) (hn : 0 < n) :
    ∀ fuel o, copyBlocksLoop fs bs n fuel o = plannerSpecLoop fs bs n fuel o := by
  intro fuel
  induction fuel with
  | zero => intro o; rfl
  | succ fuel ih =>
    intro o
    by_cases ho : o < fs
    · by_cases hfull : o + bs ≤ fs
      · have hmin : min bs (fs - o) = bs := Nat.min_eq_left (by omega)
        have hnext : o + min bs (fs - o) + (n - 1) * bs = o + n * bs := by
          rw [hmin, Nat.add_assoc, sub_one_mul_add bs hn]
        simp only [copyBlocksLoop, plannerSpecLoop, if_pos ho, hnext, ih]
      · have hmin : min bs (fs - o) = fs - o := Nat.min_eq_right (by omega)
        have hbsle : bs ≤ n * bs := Nat.le_mul_of_pos_left bs hn
        have h1 : copyBlocksLoop fs bs n fuel (o + min bs (fs - o) + (n - 1) * bs) = [] :=
          copyBlocksLoop_stop fs bs n fuel _ (by omega)
        have h2 : plannerSpecLoop fs bs n fuel (o + n * bs) = [] :=
          plannerSpecLoop_stop fs bs n fuel _ (by omega)
        simp only [copyBlocksLoop, plannerSpecLoop, if_pos ho, h1, h2]
    · simp only [copyBlocksLoop, plannerSpecLoop, if_neg ho]

/-- Claim C2: for every worker index `0 ≤ i < n`, the ordered range sequence
the code processes is exactly the spec's: first offset `i * bs`, subsequent
offsets advancing by `n * bs`, lengths `min bs (fs - offset)`, terminating
once the offset reaches `fs`; in particular a worker whose first offset is at
or past `fs` gets zero ranges. -/
theorem planner_refinement (fs bs n i : Nat) (hbs : 0 < bs) (hn : 0 < n) (hi : i < n) :
    workerRanges fs bs n i = plannerSpec fs bs n i ∧
    (fs ≤ i * bs → workerRanges fs bs n i = []) := by
  refine ⟨copyBlocksLoop_eq_plannerSpecLoop fs bs n hbs hn fs (i * bs), ?_⟩
  intro h
  exact copyBlocksLoop_stop fs bs n fs (i * bs) h

/-- Claim C2 witness: the refinement at `file_size = 5`, `block_size = 2`,
`worker_count = 2`, `worker_index = 1`. -/
theorem planner_refinement_witness :
    workerRanges 5 2 2 1 = plannerSpec 5 2 2 1 ∧ (5 ≤ 1 * 2 → workerRanges 5 2 2 1 = []) :=
  planner_refinement 5 2 2 1 (by decide) (by decide) (by decide)

/-! ## Destination/source offset agreement (claim C9)

`copy_blocks` keeps a separate destination cursor: `dest_offset` starts equal
to `offset` (dzcp.c:66), the block is written at `dest_offset` via `lseek`
(dzcp.c:89), and after a block `dest_offset += num_processes * block_size`
(dzcp.c:116) while the source offset advances by the transferred length plus
`(num_processes - 1) * block_size` (dzcp.c:99,118).  The trace below records
the (source offset, destination offset) pair at the start of every executed
outer-loop iteration. -/

def copyBlocksOffsets (fs bs n : Nat) : Nat → Nat → Nat → List (Nat × Nat)
  | 0, _, _ => []
  | fuel + 1, o, d =>
    if o < fs then
      (o, d) :: copyBlocksOffsets fs bs n fuel (o + min bs (fs - o) + (n - 1) * bs) (d + n * bs)
    else []

lemma copyBlocksOffsets_stop (fs bs n fuel o d : Nat) (h : fs ≤ o) :
    copyBlocksOffsets fs bs n fuel o d = [] := by
  cases fuel <;> simp [copyBlocksOffsets, Nat.not_lt.mpr h]

lemma copyBlocksOffsets_eq_map (fs bs n : Nat) (hn : 0 < n) :
    ∀ fuel o, copyBlocksOffsets fs bs n fuel o o =
      (copyBlocksLoop fs bs n fuel o).map (fun r => (r.1, r.1)) := by
  intro fuel
  induction fuel with
  | zero => intro o; rfl
  | succ fuel ih =>
    intro o
    by_cases ho : o < fs
    · by_cases hfull : o + bs ≤ fs
      · have hmin : min bs (fs - o) = bs := Nat.min_eq_left (by omega)
        have hnext : o + min bs (fs - o) + (n - 1) * bs = o + n * bs := by
          rw [hmin, Nat.add_assoc, sub_one_mul_add bs hn]
        simp only [copyBlocksOffsets, copyBlocksLoop, if_pos ho, hnext, List.map_cons, ih]
      · have hmin : min bs (fs - o) = fs - o := Nat.min_eq_right (by omega)
        have h1 : copyBlocksOffsets fs bs n fuel (o + min bs (fs - o) + (n - 1) * bs)
            (o + n * bs) = [] :=
          copyBlocksOffsets_stop fs bs n fuel _ _ (by omega)
        have h2 : copyBlocksLoop fs bs n fuel (o + min bs (fs - o) + (n - 1) * bs) = [] :=
          copyBlocksLoop_stop fs bs n fuel _ (by omega)
        simp only [copyBlocksOffsets, copyBlocksLoop, if_pos ho, h1, h2, List.map_cons,
          List.map_nil]
    · simp only [copyBlocksOffsets, copyBlocksLoop, if_neg ho, List.map_nil]

/-- Claim C9: starting from the common offset `i * bs`, the destination write
offset equals the source read offset at the start of every executed block
transfer — the trace of (source, destination) offset pairs is exactly the
worker's range offsets duplicated, so every transferred byte is written at
the offset it was read from. -/
theorem dest_offset_invariant (fs bs n i : Nat) (hn : 0 < n) :
    copyBlocksOffsets fs bs n fs (i * bs) (i * bs) =
      (workerRanges fs bs n i).map (fun r => (r.1, r.1)) ∧
    ∀ p ∈ copyBlocksOffsets fs bs n fs (i * bs) (i * bs), p.1 = p.2 := by
  have h := copyBlocksOffsets_eq_map fs bs n hn fs (i * bs)
  refine ⟨h, ?_⟩
  intro p hp
  rw [h] at hp
  obtain ⟨r, -, rfl⟩ := List.mem_map.mp hp
  rfl

/-- Claim C9 witness: the offset-agreement invariant for worker 0 of the
instance `file_size = 5`, `block_size = 2`, `worker_count = 2`. -/
theorem dest_offset_invariant_witness :
    copyBlocksOffsets 5 2 2 5 (0 * 2) (0 * 2) =
      (workerRanges 5 2 2 0).map (fun r => (r.1, r.1)) ∧
    ∀ p ∈ copyBlocksOffsets 5 2 2 5 (0 * 2) (0 * 2), p.1 = p.2 :=
  dest_offset_invariant 5 2 2 0 (by decide)

/-! ## The inner sendfile loop and its error handling (dzcp.c:96-112)

`sendfile` returns the number of bytes moved, or a non-positive result with
`errno` set.  On a non-positive result the code retries when `errno` is
`EINTR` or `EAGAIN` (leaving `offset` and `to_send` untouched, so the very
same call is reissued) and otherwise closes both file descriptors and calls
`exit(1)`.  On a positive result `sendfile` has advanced `offset` by the
amount moved and the code lowers `to_send` by the same amount. -/

inductive Errno where
  | eintr : Errno
  | eagain : Errno
  | other : Errno
deriving DecidableEq

inductive StepResult where
  | running : Nat → Nat → StepResult
  | exited : Nat → Bool → Bool → StepResult
deriving DecidableEq

/-- One iteration of the inner loop body, given the sendfile return value
`bytesSent` and the current `errno`: `StepResult.running offset toSend` is
the loop state afterwards, `StepResult.exited code srcClosed dstClosed` is
worker termination. -/
def sendfileStep (offset toSend : Nat) (bytesSent : Int) (e : Errno) : StepResult :=
  if bytesSent ≤ 0 then
    match e with
    | Errno.eintr => StepResult.running offset toSend
    | Errno.eagain => StepResult.running offset toSend
    | Errno.other => StepResult.exited 1 true true
  else
    StepResult.running (offset + bytesSent.toNat) (toSend - bytesSent.toNat)

/-- Running the inner loop body over a whole list of sendfile outcomes; a
terminated worker performs no further iterations. -/
def stepRun (offset toSend : Nat) : List (Int × Errno) → StepResult
  | [] => StepResult.running offset toSend
  | out :: rest =>
    match sendfileStep offset toSend out.1 out.2 with
    | StepResult.running o t => stepRun o t rest
    | StepResult.exited c s d => StepResult.exited c s d

/-! ## Orchestration (`perform_copy`, `find_optimal_settings`, `main`)

The environment records the outcome of every external interaction of one
run: the parsed command line and, for the system, the results of
`get_nprocs`, `stat`, the destination `open(O_CREAT|O_TRUNC)`, `fork`,
`drop_caches` and `unlink`, plus which workers hit a fatal sendfile error
(`workerFatal.getD i false` for worker `i`).  All observable behaviour of a
run is a pure function of this environment. -/

structure CmdLine where
  pOpt : Option Int
  sOpt : Option Int
  oFlag : Bool
  badOpt : Bool
  positionals : Nat
deriving DecidableEq

structure SysEnv where
  isRoot : Bool
  numCpus : Nat
  statOk : Bool
  fileSize : Nat
  createDestOk : Bool
  forkOk : Bool
  dropCachesOk : Bool
  unlinkOk : Bool
  workerFatal : List Bool
deriving DecidableEq

/-- Block size from the shift value: `64 * 1024 * (1 << (shift_value - 6))`
(dzcp.c:265,293).  For the program's shift domain (6..10) the C shift is the
power `2 ^ (s - 6)`. -/
def blockSizeOfShift (s : Nat) : Nat := 64 * 1024 * 2 ^ (s - 6)

/-- dzcp.c:285-288: `num_processes` stays 0 unless `-p` was given; a zero
value (unset or explicit `-p 0`) is replaced by `4 * get_nprocs()`.  Any
non-zero value — negative included — is kept. -/
def resolveNumProcs (pOpt : Option Int) (numCpus : Nat) : Int :=
  let np := pOpt.getD 0
  if np = 0 then (numCpus : Int) * 4 else np

/-- dzcp.c:290-294: `shift_value` stays 0 unless `-s` was given; a zero value
is replaced by the default 10 (1 MiB block). -/
def resolveShift (sOpt : Option Int) : Int :=
  let s := sOpt.getD 0
  if s = 0 then 10 else s

/-- Termination status of worker `i` (the child's exit code): `copy_blocks`
calls `exit(1)` on a fatal sendfile error and otherwise the child reaches
`exit(0)` (dzcp.c:108,160).  A worker whose first offset is already at or
past the file end enters no loop iteration, issues no sendfile call and thus
cannot fail. -/
def workerExitStatus (fs bs n : Nat) (fatal : List Bool) (i : Nat) : Nat :=
  if (workerRanges fs bs n i).isEmpty then 0
  else if fatal.getD i false then 1 else 0

/-- Final length of the destination file in a run where every transfer
succeeds: the file is created with length 0 (`O_TRUNC`, dzcp.c:139) and each
worker writes its ranges, so the length is the largest range end. -/
def destLenAfter (fs bs n : Nat) : Nat :=
  (((List.range n).map (fun i => workerRanges fs bs n i)).flatten.map
    (fun r => r.1 + r.2)).foldr max 0

/-- In the trace where every sendfile call moves the full requested amount,
the worker issues exactly one call per owned range; with zero ranges the
loop body never runs and no call is issued. -/
def sendfileCallCount (fs bs n i : Nat) : Nat := (workerRanges fs bs n i).length

/-- What the parent observes of one `perform_copy` run that did not abort. -/
structure CopyOutcome where
  workersSpawned : Nat
  destCreated : Bool
  destFinalLen : Nat
  workerStatuses : List Nat
  timingMeasured : Bool
deriving DecidableEq

/-- `perform_copy` (dzcp.c:126-178): stat the source, create/truncate the
destination, fork `num_processes` workers (none when the count is not
positive), wait for all of them ignoring their statuses (`wait(NULL)`,
dzcp.c:166), measure the elapsed time and report.  `none` models the parent
aborting via `exit(1)`. -/
def performCopy (np : Int) (bs : Nat) (env : SysEnv) : Option CopyOutcome :=
  if !env.statOk then none
  else if !env.createDestOk then none
  else
    let spawned := np.toNat
    if 0 < spawned ∧ !env.forkOk then none
    else
      some ⟨spawned, true, destLenAfter env.fileSize bs spawned,
        (List.range spawned).map (workerExitStatus env.fileSize bs spawned env.workerFatal),
        true⟩

/-- `find_optimal_settings` (dzcp.c:186-245) as seen by the exit code: the
sweep aborts on a failed cache drop, a failed `perform_copy` (stat, create or
fork) or a failed `unlink`; `true` = the parent exits 1. -/
def findOptimalFatal (env : SysEnv) : Bool :=
  !env.dropCachesOk || !env.statOk || !env.createDestOk ||
    (0 < env.numCpus && !env.forkOk) || !env.unlinkOk

/-- Result of one whole process run: the parent's exit code, and the copy
outcome when the run performed a single direct copy. -/
structure MainResult where
  exitCode : Nat
  copy : Option CopyOutcome
deriving DecidableEq

/-- `main` (dzcp.c:247-305): usage errors and the `-o` root check exit 1
during parsing; a missing positional exits 1; then either the benchmark
sweep or one direct `perform_copy` runs, the latter aborting the process on
a setup failure; otherwise `main` returns 0. -/
def mainRun (cmd : CmdLine) (env : SysEnv) : MainResult :=
  if cmd.badOpt then ⟨1, none⟩
  else if cmd.oFlag && !env.isRoot then ⟨1, none⟩
  else if cmd.positionals < 2 then ⟨1, none⟩
  else if cmd.oFlag then
    if findOptimalFatal env then ⟨1, none⟩ else ⟨0, none⟩
  else
    match performCopy (resolveNumProcs cmd.pOpt env.numCpus)
        (blockSizeOfShift (resolveShift cmd.sOpt).toNat) env with
    | none => ⟨1, none⟩
    | some out => ⟨0, some out⟩

/-- A fatal error in the main process itself, as a flat condition: bad
arguments, privilege failure, missing positionals, setup failure of the mode
that runs, fork failure, or benchmark cleanup failure. -/
def parentFatal (cmd : CmdLine) (env : SysEnv) : Bool :=
  cmd.badOpt || (cmd.oFlag && !env.isRoot) || decide (cmd.positionals < 2) ||
    (if cmd.oFlag then findOptimalFatal env
     else !env.statOk || !env.createDestOk ||
       (decide (0 < (resolveNumProcs cmd.pOpt env.numCpus).toNat) && !env.forkOk))

lemma performCopy_isNone (np : Int) (bs : Nat) (env : SysEnv) :
    (performCopy np bs env).isNone =
      (!env.statOk || !env.createDestOk || (decide (0 < np.toNat) && !env.forkOk)) := by
  unfold performCopy
  by_cases h1 : env.statOk <;> by_cases h2 : env.createDestOk <;>
    by_cases h3 : env.forkOk <;> by_cases h4 : 0 < np.toNat <;> simp [h1, h2, h3, h4]

lemma copyBranch_exitCode (x : Option CopyOutcome) :
    (match x with
      | none => (⟨1, none⟩ : MainResult)
      | some out => (⟨0, some out⟩ : MainResult)).exitCode =
      if x.isNone then 1 else 0 := by
  cases x <;> rfl

lemma mainRun_exit01 (cmd : CmdLine) (env : SysEnv) :
    (mainRun cmd env).exitCode = 0 ∨ (mainRun cmd env).exitCode = 1 := by
  unfold mainRun
  by_cases hb : cmd.badOpt = true
  · simp [hb]
  · by_cases hroot : (cmd.oFlag && !env.isRoot) = true
    · simp [hb, hroot]
    · by_cases hpos : cmd.positionals < 2
      · simp [hb, hroot, hpos]
      · by_cases ho : cmd.oFlag = true
        · have hr2 : env.isRoot = true := by
            rcases Bool.eq_false_or_eq_true env.isRoot with h | h
            · exact h
            · exact absurd (by simp [ho, h]) hroot
          by_cases hf : findOptimalFatal env = true <;> simp [hb, hroot, hpos, ho, hf, hr2]
        · rw [if_neg hb, if_neg hroot, if_neg hpos, if_neg ho, copyBranch_exitCode]
          by_cases hx : (performCopy (resolveNumProcs cmd.pOpt env.numCpus)
              (blockSizeOfShift (resolveShift cmd.sOpt).toNat) env).isNone <;> simp [hx]

lemma mainRun_exit_eq_one_iff (cmd : CmdLine) (env : SysEnv) :
    (mainRun cmd env).exitCode = 1 ↔ parentFatal cmd env = true := by
  unfold mainRun parentFatal
  by_cases hb : cmd.badOpt = true
  · simp [hb]
  · by_cases hroot : (cmd.oFlag && !env.isRoot) = true
    · simp [hb, hroot]
    · by_cases hpos : cmd.positionals < 2
      · simp [hb, hroot, hpos]
      · by_cases ho : cmd.oFlag = true
        · have hr2 : env.isRoot = true := by
            rcases Bool.eq_false_or_eq_true env.isRoot with h | h
            · exact h
            · exact absurd (by simp [ho, h]) hroot
          by_cases hf : findOptimalFatal env = true <;> simp [hb, hroot, hpos, ho, hf, hr2]
        · rw [if_neg hb, if_neg hroot, if_neg hpos, if_neg ho, if_neg ho, copyBranch_exitCode,
            performCopy_isNone]
          cases hB : (!env.statOk || !env.createDestOk ||
              (decide (0 < (resolveNumProcs cmd.pOpt env.numCpus).toNat) && !env.forkOk)) <;>
            simp [hb, hroot, hpos, hB]

/-! ## Helper lemmas about the direct-copy path -/

lemma performCopy_some (np : Int) (bs : Nat) (env : SysEnv) (out : CopyOutcome) :
    performCopy np bs env = some out →
      out = ⟨np.toNat, true, destLenAfter env.fileSize bs np.toNat,
        (List.range np.toNat).map (workerExitStatus env.fileSize bs np.toNat env.workerFatal),
        true⟩ := by
  unfold performCopy
  by_cases h1 : env.statOk <;> by_cases h2 : env.createDestOk <;>
    by_cases h3 : env.forkOk <;> by_cases h4 : 0 < np.toNat <;>
      simp [h1, h2, h3, h4] <;> intro h <;> first | exact h.symm | exact h

lemma mainRun_direct (cmd : CmdLine) (env : SysEnv) (hb : cmd.badOpt = false)
    (ho : cmd.oFlag = false) (hpos : 2 ≤ cmd.positionals) :
    mainRun cmd env =
      match performCopy (resolveNumProcs cmd.pOpt env.numCpus)
          (blockSizeOfShift (resolveShift cmd.sOpt).toNat) env with
      | none => ⟨1, none⟩
      | some out => ⟨0, some out⟩ := by
  unfold mainRun
  rw [if_neg (by simp [hb]), if_neg (by simp [ho]), if_neg (by omega), if_neg (by simp [ho])]

/-! ## Claim C3: transfer-error semantics of the worker -/

/-- Claim C3: on a non-positive transfer result the worker retries the same
call unconditionally when the condition is transient (interrupted or
would-block) — the loop state is unchanged, for any number of consecutive
transient outcomes — and on any other error it closes both of its file
descriptors and terminates only itself with exit status 1, ignoring anything
that would follow; one worker's termination status depends only on its own
transfer outcomes, and the parent's exit code does not depend on the workers'
transfer failures at all. -/
theorem worker_error_handling :
    (∀ off ts (b : Int) e, b ≤ 0 → (e = Errno.eintr ∨ e = Errno.eagain) →
      sendfileStep off ts b e = StepResult.running off ts) ∧
    (∀ off ts k (b : Int) e, b ≤ 0 → (e = Errno.eintr ∨ e = Errno.eagain) →
      stepRun off ts (List.replicate k (b, e)) = StepResult.running off ts) ∧
    (∀ off ts (b : Int), b ≤ 0 →
      sendfileStep off ts b Errno.other = StepResult.exited 1 true true) ∧
    (∀ off ts (b : Int) outs, b ≤ 0 →
      stepRun off ts ((b, Errno.other) :: outs) = StepResult.exited 1 true true) ∧
    (∀ fs bs n fatal fatal' i, fatal.getD i false = fatal'.getD i false →
      workerExitStatus fs bs n fatal i = workerExitStatus fs bs n fatal' i) ∧
    (∀ (cmd : CmdLine) (env : SysEnv) (l l' : List Bool),
      (mainRun cmd { env with workerFatal := l }).exitCode =
        (mainRun cmd { env with workerFatal := l' }).exitCode) := by
  have hstep : ∀ off ts (b : Int) e, b ≤ 0 → (e = Errno.eintr ∨ e = Errno.eagain) →
      sendfileStep off ts b e = StepResult.running off ts := by
    rintro off ts b e hb (rfl | rfl) <;> simp [sendfileStep, hb]
  refine ⟨hstep, ?_, ?_, ?_, ?_, ?_⟩
  · intro off ts k
    induction k with
    | zero => intro b e hb he; rfl
    | succ k ih =>
      intro b e hb he
      rw [List.replicate_succ]
      show stepRun off ts ((b, e) :: List.replicate k (b, e)) = StepResult.running off ts
      unfold stepRun
      rw [hstep off ts b e hb he]
      exact ih b e hb he
  · intro off ts b hb; simp [sendfileStep, hb]
  · intro off ts b outs hb
    unfold stepRun
    rw [show sendfileStep off ts b Errno.other = StepResult.exited 1 true true by
      simp [sendfileStep, hb]]
  · intro fs bs n fatal fatal' i h
    unfold workerExitStatus
    rw [h]
  · intro cmd env l l'
    obtain ⟨r, c, st, fsz, cr, fo, dr, un, wf⟩ := env
    have hpf : parentFatal cmd ⟨r, c, st, fsz, cr, fo, dr, un, l⟩ =
        parentFatal cmd ⟨r, c, st, fsz, cr, fo, dr, un, l'⟩ := rfl
    have e1 := mainRun_exit_eq_one_iff cmd ⟨r, c, st, fsz, cr, fo, dr, un, l⟩
    have e2 := mainRun_exit_eq_one_iff cmd ⟨r, c, st, fsz, cr, fo, dr, un, l'⟩
    have o1 := mainRun_exit01 cmd ⟨r, c, st, fsz, cr, fo, dr, un, l⟩
    have o2 := mainRun_exit01 cmd ⟨r, c, st, fsz, cr, fo, dr, un, l'⟩
    rcases o1 with h1 | h1 <;> rcases o2 with h2 | h2
    · rw [h1, h2]
    · exact absurd (e1.mpr (hpf ▸ e2.mp h2)) (by omega)
    · exact absurd (e2.mpr (hpf ▸ e1.mp h1)) (by omega)
    · rw [h1, h2]

/-- Claim C3 witness: four consecutive interrupted calls at a concrete loop
state leave the state unchanged and the worker still running. -/
theorem worker_error_handling_witness :
    stepRun 3 7 (List.replicate 4 ((-2 : Int), Errno.eintr)) = StepResult.running 3 7 :=
  worker_error_handling.2.1 3 7 4 (-2) Errno.eintr (by decide) (Or.inl rfl)

/-! ## Claim C4: exit codes -/

/-- A fatal transfer failure happened during the run: some worker of the
run's copy terminated with the failure status 1. -/
def fatalTransferInRun (cmd : CmdLine) (env : SysEnv) : Bool :=
  match (mainRun cmd env).copy with
  | none => false
  | some out => out.workerStatuses.contains 1

/-- A run with `-p 1` on a 100-byte source whose single worker hits a fatal
sendfile error. -/
def cmdCx : CmdLine := ⟨some 1, none, false, false, 2⟩

def envCx : SysEnv := ⟨false, 1, true, 100, true, true, true, true, [true]⟩

/-- Claim C4 counterexample: in this run a transfer failure classified as
fatal occurred (the worker terminated with status 1), yet the process
terminates with exit code 0 — the parent waits with `wait(NULL)` and never
looks at worker statuses, so a run with a fatal transfer error still exits 0,
contradicting the claim that such a run never terminates with exit code 0. -/
theorem exit_code_cx :
    fatalTransferInRun cmdCx envCx = true ∧ (mainRun cmdCx envCx).exitCode = 0 := by
  decide

/-- Claim C4 (amended): the process exits 0 or 1; it exits 1 exactly on a
fatal error in the main process itself (bad arguments, privilege failure,
missing operands, missing source, I/O setup failure, fork failure, benchmark
cleanup failure); a transfer failure classified as fatal terminates only the
failing worker, with status 1, and the main process can still exit 0. -/
theorem exit_codes_amended (cmd : CmdLine) (env : SysEnv) :
    ((mainRun cmd env).exitCode = 0 ∨ (mainRun cmd env).exitCode = 1) ∧
    ((mainRun cmd env).exitCode = 1 ↔ parentFatal cmd env = true) ∧
    (∀ out, (mainRun cmd env).copy = some out →
      ∀ i, i < out.workersSpawned →
        (out.workerStatuses.getD i 0 = 1 ↔
          (env.workerFatal.getD i false = true ∧
            workerRanges env.fileSize (blockSizeOfShift (resolveShift cmd.sOpt).toNat)
              out.workersSpawned i ≠ []))) := by
  refine ⟨mainRun_exit01 cmd env, mainRun_exit_eq_one_iff cmd env, ?_⟩
  intro out hout i hi
  have hcopy : (mainRun cmd env).copy =
      performCopy (resolveNumProcs cmd.pOpt env.numCpus)
        (blockSizeOfShift (resolveShift cmd.sOpt).toNat) env ∨
      (mainRun cmd env).copy = none := by
    unfold mainRun
    by_cases hb : cmd.badOpt = true
    · simp [hb]
    · by_cases hroot : (cmd.oFlag && !env.isRoot) = true
      · simp [hb, hroot]
      · by_cases hpos : cmd.positionals < 2
        · simp [hb, hroot, hpos]
        · by_cases ho : cmd.oFlag = true
          · have hr2 : env.isRoot = true := by
              rcases Bool.eq_false_or_eq_true env.isRoot with h | h
              · exact h
              · exact absurd (by simp [ho, h]) hroot
            by_cases hf : findOptimalFatal env = true <;>
              simp [hb, hroot, hpos, ho, hf, hr2]
          · rw [if_neg hb, if_neg hroot, if_neg hpos, if_neg ho]
            rcases hpc : performCopy (resolveNumProcs cmd.pOpt env.numCpus)
                (blockSizeOfShift (resolveShift cmd.sOpt).toNat) env with _ | o <;>
              simp [hpc]
  rcases hcopy with hcopy | hcopy
  · rw [hcopy] at hout
    have hspec := performCopy_some _ _ env out hout
    subst hspec
    simp only [List.getD_eq_getElem?_getD]
    rw [List.getElem?_map, List.getElem?_range (by simpa using hi)]
    simp only [Option.map_some', Option.getD_some]
    rw [← List.getD_eq_getElem?_getD]
    unfold workerExitStatus
    by_cases he : (workerRanges env.fileSize
        (blockSizeOfShift (resolveShift cmd.sOpt).toNat)
        (resolveNumProcs cmd.pOpt env.numCpus).toNat i).isEmpty = true
    · rw [if_pos he]
      constructor
      · intro h; exact absurd h (by omega)
      · rintro ⟨-, hne⟩
        exact absurd (List.isEmpty_iff.mp he) hne
    · rw [if_neg he]
      have hne : workerRanges env.fileSize
          (blockSizeOfShift (resolveShift cmd.sOpt).toNat)
          (resolveNumProcs cmd.pOpt env.numCpus).toNat i ≠ [] := by
        intro hnil
        exact he (by simp [hnil])
      by_cases hfat : env.workerFatal.getD i false = true
      · rw [if_pos hfat]
        exact ⟨fun _ => ⟨hfat, hne⟩, fun _ => rfl⟩
      · rw [if_neg hfat]
        constructor
        · intro h; exact absurd h (by omega)
        · rintro ⟨hf2, -⟩
          exact absurd hf2 hfat
  · rw [hcopy] at hout; exact absurd hout (by simp)

/-- Claim C4 witness: the amended exit-code theorem at the counterexample
run: the parent exits 0 while its worker terminated with status 1. -/
theorem exit_codes_amended_witness :
    ((mainRun cmdCx envCx).exitCode = 0 ∨ (mainRun cmdCx envCx).exitCode = 1) ∧
    ((mainRun cmdCx envCx).exitCode = 1 ↔ parentFatal cmdCx envCx = true) :=
  ⟨(exit_codes_amended cmdCx envCx).1, (exit_codes_amended cmdCx envCx).2.1⟩

/-! ## Claim C7: the shift-to-block-size mapping -/

/-- Claim C7: for a shift value `S ≥ 6` the resolved block size is
`65536 * 2 ^ (S - 6)` bytes, so shift 6 yields 65536 bytes and shift 10
yields 1048576 bytes, and an omitted `-s` resolves to the default shift 10,
giving a 1 MiB block. -/
theorem shift_block_size (s : Nat) (hs : 6 ≤ s) :
    blockSizeOfShift s = 65536 * 2 ^ (s - 6) ∧
    blockSizeOfShift 6 = 65536 ∧
    blockSizeOfShift 10 = 1048576 ∧
    resolveShift none = 10 ∧
    blockSizeOfShift (resolveShift none).toNat = 1048576 := by
  exact ⟨by norm_num [blockSizeOfShift], by decide, by decide, rfl, by decide⟩

/-- Claim C7 witness: the mapping at the concrete shift value 7. -/
theorem shift_block_size_witness : blockSizeOfShift 7 = 65536 * 2 ^ (7 - 6) :=
  (shift_block_size 7 (by decide)).1

/-! ## Claim C8: the empty source file -/

lemma workerRanges_zero (bs n i : Nat) : workerRanges 0 bs n i = [] := rfl

lemma destLenAfter_zero (bs k : Nat) : destLenAfter 0 bs k = 0 := by
  unfold destLenAfter
  have h : (List.range k).map (fun i => workerRanges 0 bs k i) =
      (List.range k).map (fun _ => ([] : List (Nat × Nat))) := by
    simp [workerRanges_zero]
  rw [h]
  simp

/-- Claim C8: with `file_size = 0` every worker's range list is empty for
every block size and worker count, so no worker issues any transfer call; the
run (with well-formed arguments and working setup calls) creates the
destination (truncated to length zero), leaves it at length 0, still measures
the elapsed time, exits 0, and every worker terminates with status 0. -/
theorem empty_file (bs n i : Nat) (cmd : CmdLine) (env : SysEnv)
    (hfs : env.fileSize = 0) (hbad : cmd.badOpt = false) (hov : cmd.oFlag = false)
    (hpos : 2 ≤ cmd.positionals) (hstat : env.statOk = true)
    (hcre : env.createDestOk = true) (hfork : env.forkOk = true) :
    workerRanges 0 bs n i = [] ∧
    sendfileCallCount 0 bs n i = 0 ∧
    (mainRun cmd env).exitCode = 0 ∧
    ∃ out, (mainRun cmd env).copy = some out ∧
      out.destCreated = true ∧ out.destFinalLen = 0 ∧ out.timingMeasured = true ∧
      ∀ st ∈ out.workerStatuses, st = 0 := by
  refine ⟨rfl, rfl, ?_, ?_⟩ <;> rw [mainRun_direct cmd env hbad hov hpos]
  · have hpc : performCopy (resolveNumProcs cmd.pOpt env.numCpus)
        (blockSizeOfShift (resolveShift cmd.sOpt).toNat) env ≠ none := by
      unfold performCopy
      simp [hstat, hcre, hfork]
    rcases hx : performCopy (resolveNumProcs cmd.pOpt env.numCpus)
        (blockSizeOfShift (resolveShift cmd.sOpt).toNat) env with _ | o
    · exact absurd hx hpc
    · simp [hx]
  · rcases hx : performCopy (resolveNumProcs cmd.pOpt env.numCpus)
        (blockSizeOfShift (resolveShift cmd.sOpt).toNat) env with _ | o
    · exfalso
      have hne : performCopy (resolveNumProcs cmd.pOpt env.numCpus)
          (blockSizeOfShift (resolveShift cmd.sOpt).toNat) env ≠ none := by
        unfold performCopy
        simp [hstat, hcre, hfork]
      exact hne hx
    · have hspec := performCopy_some _ _ env o hx
      subst hspec
      refine ⟨_, rfl, rfl, ?_, rfl, ?_⟩
      · show destLenAfter env.fileSize (blockSizeOfShift (resolveShift cmd.sOpt).toNat)
            (resolveNumProcs cmd.pOpt env.numCpus).toNat = 0
        rw [hfs]
        exact destLenAfter_zero _ _
      · intro st hst
        simp only [List.mem_map, List.mem_range] at hst
        obtain ⟨j, -, rfl⟩ := hst
        unfold workerExitStatus
        rw [hfs]
        simp [workerRanges_zero]

/-- Claim C8 witness: the empty-file theorem at a concrete run (`-p 2`,
default shift, two positional operands, all setup calls succeeding). -/
theorem empty_file_witness :
    workerRanges 0 4 2 1 = [] ∧
    sendfileCallCount 0 4 2 1 = 0 ∧
    (mainRun ⟨some 2, none, false, false, 2⟩ ⟨false, 1, true, 0, true, true, true, true, []⟩).exitCode = 0 ∧
    ∃ out, (mainRun ⟨some 2, none, false, false, 2⟩
        ⟨false, 1, true, 0, true, true, true, true, []⟩).copy = some out ∧
      out.destCreated = true ∧ out.destFinalLen = 0 ∧ out.timingMeasured = true ∧
      ∀ st ∈ out.workerStatuses, st = 0 :=
  empty_file 4 2 1 ⟨some 2, none, false, false, 2⟩ ⟨false, 1, true, 0, true, true, true, true, []⟩
    rfl rfl rfl (by decide) rfl rfl rfl

/-! ## Claim C10: a negative `-p` worker count -/

/-- Claim C10: a negative `-p` value is kept (the `4 * cpus` default applies
only to the value 0), no error path is taken: the run truncates/creates the
destination, spawns zero workers (the fork loop bound is not positive),
transfers nothing — leaving a zero-length destination even for a non-empty
source — still measures elapsed time, and exits 0. -/
theorem negative_worker_count (p : Int) (cmd : CmdLine) (env : SysEnv)
    (hp : p < 0) (hpopt : cmd.pOpt = some p) (hbad : cmd.badOpt = false)
    (hov : cmd.oFlag = false) (hpos : 2 ≤ cmd.positionals)
    (hstat : env.statOk = true) (hcre : env.createDestOk = true)
    (hfs : 0 < env.fileSize) :
    resolveNumProcs cmd.pOpt env.numCpus = p ∧
    (mainRun cmd env).exitCode = 0 ∧
    (mainRun cmd env).copy = some ⟨0, true, 0, [], true⟩ := by
  have hnp : resolveNumProcs cmd.pOpt env.numCpus = p := by
    unfold resolveNumProcs
    rw [hpopt]
    simp only [Option.getD_some]
    rw [if_neg (by omega)]
  have htn : p.toNat = 0 := Int.toNat_of_nonpos (le_of_lt hp)
  have hpc : performCopy (resolveNumProcs cmd.pOpt env.numCpus)
      (blockSizeOfShift (resolveShift cmd.sOpt).toNat) env = some ⟨0, true, 0, [], true⟩ := by
    rw [hnp]
    unfold performCopy
    rw [htn]
    simp [hstat, hcre, destLenAfter]
  rw [mainRun_direct cmd env hbad hov hpos, hpc]
  exact ⟨hnp, rfl, rfl⟩

/-- Claim C10 witness: `-p -3` on a 1000-byte source with one CPU: the
default is not applied, zero workers run, the destination ends empty and the
exit code is 0. -/
theorem negative_worker_count_witness :
    resolveNumProcs (CmdLine.pOpt ⟨some (-3), none, false, false, 2⟩) 1 = -3 ∧
    (mainRun ⟨some (-3), none, false, false, 2⟩
      ⟨false, 1, true, 1000, true, true, true, true, []⟩).exitCode = 0 ∧
    (mainRun ⟨some (-3), none, false, false, 2⟩
      ⟨false, 1, true, 1000, true, true, true, true, []⟩).copy = some ⟨0, true, 0, [], true⟩ :=
  negative_worker_count (-3) ⟨some (-3), none, false, false, 2⟩
    ⟨false, 1, true, 1000, true, true, true, true, []⟩
    (by decide) rfl rfl rfl (by decide) rfl rfl (by decide)

/-! ## Benchmark search (`find_optimal_settings`, dzcp.c:186-245)

The sweep iterates `processes_per_cpu` 1..6 in the outer loop
(`num_processes = processes_per_cpu * num_cpus`) and the five block sizes
64..1024 KiB in the inner loop (shift value `6 + i`), collecting one run per
cell, capped at `MAX_RUNS = 1000` (an iteration with a full buffer collects
nothing — net effect: the first 1000 cells). -/

def maxRuns : Nat := 1000

def benchBlockSizes : List Nat := [64 * 1024, 128 * 1024, 256 * 1024, 512 * 1024, 1024 * 1024]

/-- The (num_processes, shift_value, block_size) of every collected run, in
collection order. -/
def benchGrid (numCpus : Nat) : List (Nat × Nat × Nat) :=
  ((List.range' 1 6).flatMap (fun ppc =>
    benchBlockSizes.enum.map (fun bi => (ppc * numCpus, 6 + bi.1, bi.2)))).take maxRuns

lemma benchGrid_eq (c : Nat) :
    benchGrid c =
      [(1 * c, 6, 65536), (1 * c, 7, 131072), (1 * c, 8, 262144), (1 * c, 9, 524288),
       (1 * c, 10, 1048576),
       (2 * c, 6, 65536), (2 * c, 7, 131072), (2 * c, 8, 262144), (2 * c, 9, 524288),
       (2 * c, 10, 1048576),
       (3 * c, 6, 65536), (3 * c, 7, 131072), (3 * c, 8, 262144), (3 * c, 9, 524288),
       (3 * c, 10, 1048576),
       (4 * c, 6, 65536), (4 * c, 7, 131072), (4 * c, 8, 262144), (4 * c, 9, 524288),
       (4 * c, 10, 1048576),
       (5 * c, 6, 65536), (5 * c, 7, 131072), (5 * c, 8, 262144), (5 * c, 9, 524288),
       (5 * c, 10, 1048576),
       (6 * c, 6, 65536), (6 * c, 7, 131072), (6 * c, 8, 262144), (6 * c, 9, 524288),
       (6 * c, 10, 1048576)] := rfl

/-- Claim C5: for `cpu_count = C` the sweep collects exactly `6 * 5 = 30`
runs — never more than the 1000-run cap — and run `j` (0-based) uses worker
count `(j / 5 + 1) * C` (worker counts `C*1 .. C*6`, outer loop) with shift
`6 + j % 5` and block size `65536 * 2 ^ (j % 5)` (64..1024 KiB, inner
loop). -/
theorem benchmark_grid (c : Nat) :
    (benchGrid c).length = 30 ∧
    (benchGrid c).length ≤ maxRuns ∧
    (∀ j, j < 30 →
      (benchGrid c)[j]? = some ((j / 5 + 1) * c, 6 + j % 5, 65536 * 2 ^ (j % 5))) := by
  refine ⟨by rw [benchGrid_eq]; rfl, by rw [benchGrid_eq]; norm_num [maxRuns], ?_⟩
  intro j hj
  rw [benchGrid_eq]
  interval_cases j <;> norm_num

/-- Claim C5 witness: run 7 of the sweep on a 4-CPU machine is worker count
8, shift 8, block size 256 KiB. -/
theorem benchmark_grid_witness :
    (7 : Nat) < 30 ∧
    (benchGrid 4)[7]? = some ((7 / 5 + 1) * 4, 6 + 7 % 5, 65536 * 2 ^ (7 % 5)) :=
  ⟨by decide, (benchmark_grid 4).2.2 7 (by decide)⟩

/-! ## Sorting and reporting the runs (dzcp.c:180-184, 229-242)

A run record carries `num_processes`, `block_size`, the elapsed wall-clock
time (a real measurement, modelled as a rational) and the shift value.
`compare_run_results` orders runs by elapsed time ascending; the report loops
print `results[0..4]` and `results[run_index-1 .. run_index-5]` (clipped at
the array bounds). -/

structure RunResult where
  numProcesses : Nat
  blockSize : Nat
  elapsedTime : ℚ
  shiftValue : Nat
deriving DecidableEq

/-- The comparator of `qsort`: ascending elapsed time. -/
def runLE (a b : RunResult) : Prop := a.elapsedTime ≤ b.elapsedTime

instance : DecidableRel runLE :=
  fun a b => inferInstanceAs (Decidable (a.elapsedTime ≤ b.elapsedTime))

instance : IsTotal RunResult runLE := ⟨fun a b => le_total a.elapsedTime b.elapsedTime⟩

instance : IsTrans RunResult runLE := ⟨fun _ _ _ hab hbc => le_trans hab hbc⟩

/-- The sorted run buffer after the `qsort` call. -/
def sortRuns (l : List RunResult) : List RunResult := List.insertionSort runLE l

/-- The "Fastest 5" report loop: `for (i = 0; i < 5 && i < run_index; i++)`
prints `results[i]` — indices 0..4 that exist. -/
def fastestReport (runs : List RunResult) : List RunResult :=
  (List.range 5).filterMap (fun i => (sortRuns runs)[i]?)

/-- The "Slowest 5" report loop:
`for (i = run_index - 1; i >= run_index - 5 && i >= 0; i--)` prints
`results[i]` — the last five existing indices, from the end inward. -/
def slowestReport (runs : List RunResult) : List RunResult :=
  (List.range 5).filterMap (fun k =>
    if k < (sortRuns runs).length then
      (sortRuns runs)[(sortRuns runs).length - 1 - k]?
    else none)

lemma filterMap_range_getElem {α : Type} (s : List α) (m : Nat) :
    (List.range m).filterMap (fun i => s[i]?) = s.take m := by
  induction m with
  | zero => simp
  | succ m ih =>
    rw [List.range_succ, List.filterMap_append, ih, List.take_succ]
    cases h : s[m]? <;> simp [h, List.filterMap_cons]

lemma fastestReport_eq_take (runs : List RunResult) :
    fastestReport runs = (sortRuns runs).take 5 := by
  unfold fastestReport
  exact filterMap_range_getElem (sortRuns runs) 5

lemma slowestReport_eq_take_reverse (runs : List RunResult) :
    slowestReport runs = ((sortRuns runs).reverse).take 5 := by
  unfold slowestReport
  have hfun : (fun k => if k < (sortRuns runs).length then
      (sortRuns runs)[(sortRuns runs).length - 1 - k]? else none) =
      fun k => ((sortRuns runs).reverse)[k]? := by
    funext k
    by_cases hk : k < (sortRuns runs).length
    · rw [if_pos hk, List.getElem?_reverse hk]
    · rw [if_neg hk, eq_comm]
      apply List.getElem?_eq_none
      simpa using Nat.not_lt.mp hk
  rw [hfun]
  exact filterMap_range_getElem ((sortRuns runs).reverse) 5

/-- Claim C6: after the sweep the collected runs are sorted ascending by
elapsed time (a permutation of the collected runs); the fastest-5 report is
the first five entries of the sorted sequence and the slowest-5 report the
last five (taken from the end inward); with fewer than five runs both
reports list all available runs. -/
theorem benchmark_report (runs : List RunResult) :
    (sortRuns runs).Sorted runLE ∧
    (sortRuns runs).Perm runs ∧
    fastestReport runs = (sortRuns runs).take 5 ∧
    slowestReport runs = ((sortRuns runs).reverse).take 5 ∧
    (runs.length < 5 →
      fastestReport runs = sortRuns runs ∧ slowestReport runs = (sortRuns runs).reverse) := by
  refine ⟨List.sorted_insertionSort runLE runs, List.perm_insertionSort runLE runs,
    fastestReport_eq_take runs, slowestReport_eq_take_reverse runs, ?_⟩
  intro hlt
  have hlen : (sortRuns runs).length = runs.length :=
    (List.perm_insertionSort runLE runs).length_eq
  constructor
  · rw [fastestReport_eq_take runs]
    apply List.take_of_length_le
    omega
  · rw [slowestReport_eq_take_reverse runs]
    apply List.take_of_length_le
    rw [List.length_reverse]
    omega

/-- Claim C6 witness: the report theorem at a concrete three-run sweep: both
reports list all three runs. -/
theorem benchmark_report_witness :
    fastestReport [⟨2, 65536, 3, 6⟩, ⟨4, 131072, 1, 7⟩, ⟨8, 262144, 2, 8⟩] =
      sortRuns [⟨2, 65536, 3, 6⟩, ⟨4, 131072, 1, 7⟩, ⟨8, 262144, 2, 8⟩] ∧
    slowestReport [⟨2, 65536, 3, 6⟩, ⟨4, 131072, 1, 7⟩, ⟨8, 262144, 2, 8⟩] =
      (sortRuns [⟨2, 65536, 3, 6⟩, ⟨4, 131072, 1, 7⟩, ⟨8, 262144, 2, 8⟩]).reverse :=
  (benchmark_report [⟨2, 65536, 3, 6⟩, ⟨4, 131072, 1, 7⟩, ⟨8, 262144, 2, 8⟩]).2.2.2.2
    (by decide)

end Dzcp
